import Mathlib

/-!
Shallow embedding of the Traffic-Survey analytical core
(`src/types.ts`, class `TrafficSurveySession`, together with the
`SurveyRow` assembly in the `onRow` callback of `src/App.tsx`).

Modelling conventions:
* JavaScript numbers are modelled as exact rationals (`ℚ`); frame counters
  and ids, which only ever hold naturals in the program, are `Nat`.
* `Math.sqrt` is an external library call; the embedding is parametric in a
  function `sq : ℚ → ℚ` standing for it.  No theorem below depends on the
  numerical behaviour of `sq` except where a hypothesis such as `sq 0 = 0`
  (a fact of `Math.sqrt`) is stated explicitly.  Concrete evaluations use
  `sqrtInt`, which agrees with `Math.sqrt` on perfect squares of naturals
  (the only inputs occurring in the concrete runs used here).
* The division `dot / (magV * magU)` in the wrong-way check follows
  JavaScript semantics: a zero denominator produces `NaN` or `±Infinity`,
  and the subsequent comparison `cosSim < 0.2` is `false` for `NaN` and
  `+Infinity` and `true` for `-Infinity`.  `jsDivLt` encodes exactly that.
* The `cocoSsd` detector, video element, canvas drawing and the
  `model`/`isConnected` gating are external to the analytical core; a frame
  is represented by the candidate list that the ROI filter produces.
-/

set_option maxRecDepth 100000

namespace Traffic

/-- A 2-D point (interface `Point` in `src/types.ts`). -/
structure Pt where
  x : ℚ
  y : ℚ
deriving DecidableEq

/-- A directed segment (interface `Vector` in `src/types.ts`). -/
structure Vec where
  startP : Pt
  endP : Pt
deriving DecidableEq

/-- Signal phase, field `phase : 'RED' | 'GREEN'` of the session. -/
inductive Phase where
  | RED
  | GREEN
deriving DecidableEq

/-- One tracked vehicle (interface `TrackedVehicle` in the service). -/
structure TrackedVehicle where
  id : Nat
  lastX : ℚ
  lastY : ℚ
  width : ℚ
  height : ℚ
  speed : ℚ
  framesSeen : Nat
  isStopped : Bool
  missingFrames : Nat
  wrongWay : Bool
  hasJoinedQueue : Bool
deriving DecidableEq

/-- An ROI-filtered candidate detection for one frame
(the element type of `currentCandidates`). -/
structure Candidate where
  x : ℚ
  y : ℚ
  w : ℚ
  h : ℚ
  label : String := ""
deriving DecidableEq

/-- The per-cycle accumulator (field `cycleData` of the session). -/
structure CycleData where
  Ni : Nat
  Nr : Nat
  Ng : Nat
  No : Nat
  arrivals : Nat
deriving DecidableEq

/-- The partial row handed to `onRowCallback` at each GREEN→RED transition. -/
structure CycleRow where
  Ni : Nat
  Nr : Nat
  Ng : Nat
  No : Nat
  avgGap : Option ℚ
deriving DecidableEq

/-- The per-frame stats snapshot (interface `RealTimeStats`). -/
structure RealTimeStats where
  phase : Phase
  totalVisible : Nat
  queueCount : Nat
  freeFlowCount : Nat
  wrongWayCount : Nat
deriving DecidableEq

/-- The full row built by the `onRow` callback in `src/App.tsx`
(the video-clock timestamp fields are external and omitted). -/
structure SurveyRow where
  cycleNumber : Nat
  Ni : Nat
  Nr : Nat
  Ng : Nat
  Nb : Nat
  No : Nat
  avgGap : Option ℚ
deriving DecidableEq

/-- Mutable state of a `TrafficSurveySession`. -/
structure SessionState where
  roi : List Pt
  directionVector : Option Vec
  trackedVehicles : List TrackedVehicle
  nextId : Nat
  phase : Phase
  frameCount : Nat
  cycleData : CycleData
  lastPhaseChangeFrame : Nat
  lastGreenFrameStart : Nat
  exitTimes : List Nat
deriving DecidableEq

/-- `const STOP_THRESHOLD = 0.8`. -/
def STOP_THRESHOLD : ℚ := 8 / 10

/-- `const QUEUE_JOIN_THRESHOLD = 2.5`. -/
def QUEUE_JOIN_THRESHOLD : ℚ := 5 / 2

/-- `const MAX_MISSING_FRAMES = 15`. -/
def MAX_MISSING_FRAMES : Nat := 15

/-- `const MIN_PHASE_DURATION = 30`. -/
def MIN_PHASE_DURATION : Nat := 30

/-- State of the session right after construction: `phase = 'GREEN'`,
`nextId = 1`, zeroed counters, empty track list and exit log. -/
def initState (roi : List Pt) (dv : Option Vec) : SessionState where
  roi := roi
  directionVector := dv
  trackedVehicles := []
  nextId := 1
  phase := Phase.GREEN
  frameCount := 0
  cycleData := ⟨0, 0, 0, 0, 0⟩
  lastPhaseChangeFrame := 0
  lastGreenFrameStart := 0
  exitTimes := []

/-- A stand-in for `Math.sqrt` that is exact on perfect squares of
naturals; used only to instantiate concrete runs. -/
def sqrtInt (q : ℚ) : ℚ := (Nat.sqrt q.num.toNat : ℚ)

/-- JavaScript evaluation of `num / den < c`: with `den = 0` the division
yields `NaN` (`num = 0`), `+Infinity` (`num > 0`) or `-Infinity`
(`num < 0`), and only `-Infinity < c` holds. -/
def jsDivLt (num den c : ℚ) : Bool :=
  if den = 0 then decide (num < 0) else decide (num / den < c)

/-- The wrong-way re-evaluation for a matched track
(`src/types.ts` lines 229–244): only with a configured direction vector and
`speed > 1.5`; cosine similarity `< 0.2` marks wrong-way, otherwise clears
it; below the gate (or without a vector) the previous value persists. -/
def wrongWayUpdate (sq : ℚ → ℚ) (dv : Option Vec) (prev : Bool)
    (dx dy speed : ℚ) : Bool :=
  match dv with
  | none => prev
  | some u =>
    if (3 / 2 : ℚ) < speed then
      let uDx := u.endP.x - u.startP.x
      let uDy := u.endP.y - u.startP.y
      let dot := dx * uDx + dy * uDy
      let magV := sq (dx * dx + dy * dy)
      let magU := sq (uDx * uDx + uDy * uDy)
      jsDivLt dot (magV * magU) (2 / 10)
    else prev

/-- Update of a matched track (`src/types.ts` lines 218–269).  Returns the
updated track and whether the queue-join edge fired (which is exactly when
`cycleData.arrivals` is incremented). -/
def matchUpdate (sq : ℚ → ℚ) (ph : Phase) (dv : Option Vec)
    (t : TrackedVehicle) (v : Candidate) : TrackedVehicle × Bool :=
  let dx := v.x - t.lastX
  let dy := v.y - t.lastY
  let distMoved := sq (dx * dx + dy * dy)
  let speed := t.speed * (1 / 2) + distMoved * (1 / 2)
  let isStopped := decide (speed < STOP_THRESHOLD)
  let wrongWay := wrongWayUpdate sq dv t.wrongWay dx dy speed
  let joined0 := t.hasJoinedQueue
  let jp : Bool × Bool :=
    if ph = Phase.GREEN ∧ joined0 = false ∧ wrongWay = false then
      if speed < QUEUE_JOIN_THRESHOLD then (true, true) else (joined0, false)
    else (joined0, false)
  (⟨t.id, v.x, v.y, v.w, v.h, speed, t.framesSeen + 1, isStopped, 0,
    wrongWay, jp.1⟩, jp.2)

/-- A freshly spawned track for an unmatched candidate
(`src/types.ts` lines 270–285). -/
def newTrack (id : Nat) (v : Candidate) : TrackedVehicle where
  id := id
  lastX := v.x
  lastY := v.y
  width := v.w
  height := v.h
  speed := 5
  framesSeen := 1
  isStopped := false
  missingFrames := 0
  wrongWay := false
  hasJoinedQueue := false

/-- One iteration of the best-match scan (`src/types.ts` lines 209–216):
skip already-matched tracks, otherwise compare the Euclidean distance with
the running minimum. -/
def fbStep (sq : ℚ → ℚ) (matched : List Nat) (vx vy : ℚ)
    (acc : Option TrackedVehicle × ℚ) (t : TrackedVehicle) :
    Option TrackedVehicle × ℚ :=
  if t.id ∈ matched then acc
  else
    let dist := sq ((t.lastX - vx) * (t.lastX - vx) +
      (t.lastY - vy) * (t.lastY - vy))
    if dist < acc.2 then (some t, dist) else acc

/-- Greedy nearest-neighbour scan for one candidate
(`src/types.ts` lines 205–216): over the not-yet-matched tracks, keep the
strictly closest one with running minimum starting at the gating radius
`60`; ties keep the earlier track. -/
def findBest (sq : ℚ → ℚ) (tracked : List TrackedVehicle)
    (matched : List Nat) (vx vy : ℚ) : Option TrackedVehicle × ℚ :=
  tracked.foldl (fbStep sq matched vx vy) (none, 60)

/-- Accumulator of the candidate loop: the `matchedIds` set, the
`newTracked` list being built, and the session's `nextId` and
`cycleData.arrivals` counters. -/
structure MatchAcc where
  matched : List Nat
  newTracked : List TrackedVehicle
  nextId : Nat
  arrivals : Nat
deriving DecidableEq

/-- Body of `currentCandidates.forEach` (`src/types.ts` lines 205–286):
match-and-update, or spawn a new track with a freshly allocated id. -/
def processCandidate (sq : ℚ → ℚ) (ph : Phase) (dv : Option Vec)
    (tracked : List TrackedVehicle) (acc : MatchAcc) (v : Candidate) :
    MatchAcc :=
  match (findBest sq tracked acc.matched v.x v.y).1 with
  | some t =>
    let u := matchUpdate sq ph dv t v
    { matched := t.id :: acc.matched
      newTracked := acc.newTracked ++ [u.1]
      nextId := acc.nextId
      arrivals := acc.arrivals + (if u.2 then 1 else 0) }
  | none =>
    { matched := acc.matched
      newTracked := acc.newTracked ++ [newTrack acc.nextId v]
      nextId := acc.nextId + 1
      arrivals := acc.arrivals }

/-- One iteration of the unmatched-track loop
(`src/types.ts` lines 289–304): matched tracks were already handled; below
the persistence limit the track is retained with `missingFrames + 1`; at
the limit it is dropped, logging an exit time when the drop counts as a
departure (`GREEN`, not wrong-way, not stopped, seen more than 5 frames). -/
def huStep (ph : Phase) (frameCount : Nat) (matched : List Nat)
    (acc : List TrackedVehicle × List Nat) (t : TrackedVehicle) :
    List TrackedVehicle × List Nat :=
  if t.id ∈ matched then acc
  else if t.missingFrames < MAX_MISSING_FRAMES then
    (acc.1 ++ [{ t with missingFrames := t.missingFrames + 1 }], acc.2)
  else if ph = Phase.GREEN ∧ t.wrongWay = false ∧ t.isStopped = false ∧
      5 < t.framesSeen then
    (acc.1, acc.2 ++ [frameCount])
  else acc

/-- Unmatched-track handling (`src/types.ts` lines 288–304), appending the
persisted tracks in original order and extending the exit-time log. -/
def handleUnmatched (ph : Phase) (frameCount : Nat) (matched : List Nat)
    (tracked : List TrackedVehicle) (exitTimes : List Nat) :
    List TrackedVehicle × List Nat :=
  tracked.foldl (huStep ph frameCount matched) ([], exitTimes)

/-- The tracking part of `detectFrame` (`src/types.ts` lines 159–306):
increments the frame counter, runs the candidate loop and the
unmatched-track handling, and installs the new track list. -/
def trackUpdate (sq : ℚ → ℚ) (s : SessionState) (cands : List Candidate) :
    SessionState :=
  let frameCount := s.frameCount + 1
  let acc := cands.foldl (processCandidate sq s.phase s.directionVector
    s.trackedVehicles)
    ⟨[], [], s.nextId, s.cycleData.arrivals⟩
  let hu := handleUnmatched s.phase frameCount acc.matched s.trackedVehicles
    s.exitTimes
  { s with
      frameCount := frameCount
      trackedVehicles := acc.newTracked ++ hu.1
      nextId := acc.nextId
      cycleData := { s.cycleData with arrivals := acc.arrivals }
      exitTimes := hu.2 }

/-- `this.trackedVehicles.filter(v => !v.wrongWay)`. -/
def validVehicles (ts : List TrackedVehicle) : List TrackedVehicle :=
  ts.filter (fun v => !v.wrongWay)

/-- `stoppedCount` of the phase detector (`src/types.ts` line 361): valid
tracks that are stopped and have `framesSeen > 3`. -/
def stoppedCount (ts : List TrackedVehicle) : Nat :=
  ((validVehicles ts).filter
    (fun v => v.isStopped && decide (3 < v.framesSeen))).length

/-- `movingCount = validVehicles.length - stoppedCount`. -/
def movingCount (ts : List TrackedVehicle) : Nat :=
  (validVehicles ts).length - stoppedCount ts

/-- Real-time stats snapshot (`src/types.ts` lines 309–324), computed on
the freshly installed track list before any phase transition. -/
def statsOf (s1 : SessionState) : RealTimeStats :=
  let valid := validVehicles s1.trackedVehicles
  { phase := s1.phase
    totalVisible := s1.trackedVehicles.length
    queueCount :=
      (valid.filter (fun v => v.hasJoinedQueue || v.isStopped)).length
    freeFlowCount :=
      (valid.filter (fun v => !v.hasJoinedQueue && !v.isStopped)).length
    wrongWayCount := s1.trackedVehicles.length - valid.length }

/-- Average-gap computation at cycle end (`src/types.ts` lines 397–411):
`0` unless at least two exit events; otherwise sort ascending, average the
consecutive differences and divide by the 10-FPS normalisation. -/
def avgGapCalc (exitTimes : List Nat) : ℚ :=
  if 1 < exitTimes.length then
    let sorted := List.insertionSort (fun a b => a ≤ b) exitTimes
    let gaps : List Nat := (sorted.zip sorted.tail).map (fun p => p.2 - p.1)
    let totalGapFrames : Nat := gaps.sum
    let gapsCount : Nat := gaps.length
    if 0 < gapsCount then ((totalGapFrames : ℚ) / (gapsCount : ℚ)) / 10
    else 0
  else 0

/-- `triggerPhaseChange` (`src/types.ts` lines 390–470).  Entering RED
finalises the cycle: compute the average gap, compute the overflow, emit
the partial row (`avgGap` is the `'-'` sentinel, modelled `none`, unless
the computed value is `> 0`), reset the accumulator with `Ni = overflow`
and clear the exit log.  Entering GREEN re-baselines `hasJoinedQueue` on
valid tracks, snapshots `Nr`, and resets the arrival counter and exit log.
Both branches set `phase` and `lastPhaseChangeFrame`. -/
def triggerPhaseChange (s1 : SessionState) (newPhase : Phase) :
    SessionState × Option CycleRow :=
  match newPhase with
  | Phase.RED =>
    let avgGapVal := avgGapCalc s1.exitTimes
    let valid := validVehicles s1.trackedVehicles
    let overflow :=
      (valid.filter (fun v => v.hasJoinedQueue && v.isStopped)).length
    let row : CycleRow :=
      { Ni := s1.cycleData.Ni
        Nr := s1.cycleData.Nr
        Ng := s1.cycleData.arrivals
        No := overflow
        avgGap := if 0 < avgGapVal then some avgGapVal else none }
    ({ s1 with
        cycleData := ⟨overflow, 0, 0, 0, 0⟩
        exitTimes := []
        phase := Phase.RED
        lastPhaseChangeFrame := s1.frameCount }, some row)
  | Phase.GREEN =>
    let newTracks := s1.trackedVehicles.map (fun v =>
      if !v.wrongWay then
        { v with hasJoinedQueue := v.isStopped || decide (v.speed < 2) }
      else v)
    let queueCount := (s1.trackedVehicles.filter (fun v =>
      !v.wrongWay && (v.isStopped || decide (v.speed < 2)))).length
    ({ s1 with
        trackedVehicles := newTracks
        cycleData := { s1.cycleData with Nr := queueCount, arrivals := 0 }
        lastGreenFrameStart := s1.frameCount
        exitTimes := []
        phase := Phase.GREEN
        lastPhaseChangeFrame := s1.frameCount }, none)

/-- The phase-transition decision of `detectFrame`
(`src/types.ts` lines 360–387), with the branch structure of the source:
evaluation is gated by the hysteresis window, GREEN→RED fires on the two
stopped-count conditions, RED→GREEN on resumed movement or an empty
intersection. -/
def phaseDecision (s1 : SessionState) : Option Phase :=
  if MIN_PHASE_DURATION < s1.frameCount - s1.lastPhaseChangeFrame then
    match s1.phase with
    | Phase.GREEN =>
      if movingCount s1.trackedVehicles < stoppedCount s1.trackedVehicles ∧
          1 ≤ stoppedCount s1.trackedVehicles then some Phase.RED
      else if 2 ≤ stoppedCount s1.trackedVehicles then some Phase.RED
      else none
    | Phase.RED =>
      if stoppedCount s1.trackedVehicles < movingCount s1.trackedVehicles
        then some Phase.GREEN
      else if (validVehicles s1.trackedVehicles).length = 0 then
        some Phase.GREEN
      else none
  else none

/-- Result of one `detectFrame` call: the new state, the partial row handed
to `onRowCallback` (if the frame finalised a cycle), the stats snapshot
handed to `onStatsCallback`, and which transition (if any) fired. -/
structure StepResult where
  state : SessionState
  row : Option CycleRow
  stats : RealTimeStats
  transition : Option Phase
deriving DecidableEq

/-- One full `detectFrame` step (`src/types.ts` lines 156–388) on the
candidate list of the frame: tracking update, stats snapshot (delivered
before any transition), then at most one phase transition. -/
def detectFrame (sq : ℚ → ℚ) (s : SessionState) (cands : List Candidate) :
    StepResult :=
  let s1 := trackUpdate sq s cands
  let stats := statsOf s1
  match phaseDecision s1 with
  | some p =>
    let r := triggerPhaseChange s1 p
    ⟨r.1, r.2, stats, some p⟩
  | none => ⟨s1, none, stats, none⟩

/-- The `onRow` callback of `src/App.tsx` (lines 94–114): wraps a partial
row into a `SurveyRow`, computing `Nb = Nr + Ng` (`const nb =
(partialRow.Nr || 0) + (partialRow.Ng || 0)`; the partial row's numeric
fields are always present, so `|| 0` is the identity). -/
def buildRow (prevLen : Nat) (p : CycleRow) : SurveyRow where
  cycleNumber := prevLen + 1
  Ni := p.Ni
  Nr := p.Nr
  Ng := p.Ng
  Nb := p.Nr + p.Ng
  No := p.No
  avgGap := p.avgGap

/-- One frame of the processing loop together with the App's row
collection. -/
def stepSession (sq : ℚ → ℚ) (acc : SessionState × List SurveyRow)
    (cands : List Candidate) : SessionState × List SurveyRow :=
  let r := detectFrame sq acc.1 cands
  match r.row with
  | some p => (r.state, acc.2 ++ [buildRow acc.2.length p])
  | none => (r.state, acc.2)

/-- Run the session over a list of frames (each frame given by its
candidate list), collecting the emitted survey rows in order. -/
def runSession (sq : ℚ → ℚ) (s0 : SessionState)
    (frames : List (List Candidate)) : SessionState × List SurveyRow :=
  frames.foldl (stepSession sq) (s0, [])

/-- Ray-casting point-in-polygon test (`isPointInPolygon` in the service):
edge `i` pairs vertex `i` with its predecessor (the last vertex for
`i = 0`). -/
def isPointInPolygon (point : Pt) (vs : List Pt) : Bool :=
  (vs.zip (vs.rotate (vs.length - 1))).foldl
    (fun inside pr =>
      let xi := pr.1.x
      let yi := pr.1.y
      let xj := pr.2.x
      let yj := pr.2.y
      let intersect := (decide (point.y < yi) != decide (point.y < yj)) &&
        decide (point.x < (xj - xi) * (point.y - yi) / (yj - yi) + xi)
      if intersect then !inside else inside)
    false

/-- A raw detector prediction: class label and bounding box
`[x, y, w, h]` in source pixel space. -/
structure Prediction where
  label : String
  b0 : ℚ
  b1 : ℚ
  b2 : ℚ
  b3 : ℚ
deriving DecidableEq

/-- `const vehicleTypes = ['car', 'truck', 'bus', 'motorcycle']`. -/
def vehicleTypes : List String := ["car", "truck", "bus", "motorcycle"]

/-- Candidate extraction (`src/types.ts` lines 170–195): class filter,
rescale to canvas space, ground-contact point at 90% of the box height,
ROI membership test. -/
def extractCandidates (roi : List Pt) (scaleX scaleY : ℚ)
    (preds : List Prediction) : List Candidate :=
  preds.foldl
    (fun acc p =>
      if vehicleTypes.contains p.label then
        let boxX := p.b0 * scaleX
        let boxY := p.b1 * scaleY
        let boxW := p.b2 * scaleX
        let boxH := p.b3 * scaleY
        let centerX := boxX + boxW / 2
        let centerY := boxY + boxH / 2
        let checkPoint : Pt := ⟨centerX, boxY + boxH * (9 / 10)⟩
        if isPointInPolygon checkPoint roi then
          acc ++ [⟨centerX, centerY, boxW, boxH, p.label⟩]
        else acc
      else acc)
    []

/-! ### Basic lemmas about one step -/

/-- The tracking update advances the frame counter by one. -/
theorem trackUpdate_frameCount (sq : ℚ → ℚ) (s : SessionState)
    (cands : List Candidate) :
    (trackUpdate sq s cands).frameCount = s.frameCount + 1 := rfl

/-- The tracking update does not change the phase. -/
theorem trackUpdate_phase (sq : ℚ → ℚ) (s : SessionState)
    (cands : List Candidate) :
    (trackUpdate sq s cands).phase = s.phase := rfl

/-- The tracking update does not change the last-transition marker. -/
theorem trackUpdate_lastPhaseChangeFrame (sq : ℚ → ℚ) (s : SessionState)
    (cands : List Candidate) :
    (trackUpdate sq s cands).lastPhaseChangeFrame =
      s.lastPhaseChangeFrame := rfl

/-- The tracking update does not change the carried-over queue `Ni`. -/
theorem trackUpdate_Ni (sq : ℚ → ℚ) (s : SessionState)
    (cands : List Candidate) :
    (trackUpdate sq s cands).cycleData.Ni = s.cycleData.Ni := rfl

/-- `triggerPhaseChange` installs the requested phase. -/
theorem triggerPhaseChange_phase (s1 : SessionState) (p : Phase) :
    (triggerPhaseChange s1 p).1.phase = p := by
  cases p <;> rfl

/-- `triggerPhaseChange` does not touch the frame counter. -/
theorem triggerPhaseChange_frameCount (s1 : SessionState) (p : Phase) :
    (triggerPhaseChange s1 p).1.frameCount = s1.frameCount := by
  cases p <;> rfl

/-- The transition reported by a step is exactly the phase decision taken
on the post-tracking state. -/
theorem detectFrame_transition (sq : ℚ → ℚ) (s : SessionState)
    (cands : List Candidate) :
    (detectFrame sq s cands).transition =
      phaseDecision (trackUpdate sq s cands) := by
  simp only [detectFrame]
  cases h : phaseDecision (trackUpdate sq s cands) <;> simp [h]

/-- The state after a step, split by the phase decision. -/
theorem detectFrame_state (sq : ℚ → ℚ) (s : SessionState)
    (cands : List Candidate) :
    (detectFrame sq s cands).state =
      (match phaseDecision (trackUpdate sq s cands) with
        | some p => (triggerPhaseChange (trackUpdate sq s cands) p).1
        | none => trackUpdate sq s cands) := by
  simp only [detectFrame]
  cases h : phaseDecision (trackUpdate sq s cands) <;> simp [h]

/-- The row emitted by a step, split by the phase decision. -/
theorem detectFrame_row (sq : ℚ → ℚ) (s : SessionState)
    (cands : List Candidate) :
    (detectFrame sq s cands).row =
      (match phaseDecision (trackUpdate sq s cands) with
        | some p => (triggerPhaseChange (trackUpdate sq s cands) p).2
        | none => none) := by
  simp only [detectFrame]
  cases h : phaseDecision (trackUpdate sq s cands) <;> simp [h]

/-- The stats snapshot of a step is taken on the post-tracking state,
before any transition. -/
theorem detectFrame_stats (sq : ℚ → ℚ) (s : SessionState)
    (cands : List Candidate) :
    (detectFrame sq s cands).stats = statsOf (trackUpdate sq s cands) := by
  simp only [detectFrame]
  cases h : phaseDecision (trackUpdate sq s cands) <;> simp [h]

/-- A positive phase decision is only reached inside the hysteresis window
and always toggles the phase. -/
theorem phaseDecision_some (s1 : SessionState) (p : Phase)
    (h : phaseDecision s1 = some p) :
    MIN_PHASE_DURATION < s1.frameCount - s1.lastPhaseChangeFrame ∧
      p ≠ s1.phase := by
  unfold phaseDecision at h
  by_cases hw : MIN_PHASE_DURATION <
      s1.frameCount - s1.lastPhaseChangeFrame
  · refine ⟨hw, ?_⟩
    rw [if_pos hw] at h
    split at h <;> split_ifs at h <;>
      (injection h with h2 ; subst h2 ; simp_all)
  · rw [if_neg hw] at h
    exact Option.noConfusion h

/-! ### C10: the stats snapshot partitions the visible tracks -/

/-- A list's length splits along any boolean predicate. -/
theorem length_filter_add_length_filter_not {α : Type} (l : List α)
    (p : α → Bool) :
    (l.filter p).length + (l.filter (fun x => !(p x))).length = l.length := by
  induction l with
  | nil => rfl
  | cons a l ih => cases h : p a <;> simp [List.filter_cons, h] <;> omega

/-- The stats snapshot computed on any state satisfies the partition
equation. -/
theorem statsOf_partition (s1 : SessionState) :
    (statsOf s1).totalVisible =
      (statsOf s1).queueCount + (statsOf s1).freeFlowCount +
        (statsOf s1).wrongWayCount := by
  have hpart := length_filter_add_length_filter_not
    (validVehicles s1.trackedVehicles)
    (fun v => v.hasJoinedQueue || v.isStopped)
  have hneg : (fun (v : TrackedVehicle) => !(v.hasJoinedQueue || v.isStopped)) =
      (fun v => !v.hasJoinedQueue && !v.isStopped) :=
    funext fun v => by cases v.hasJoinedQueue <;> cases v.isStopped <;> rfl
  rw [hneg] at hpart
  have hle : (validVehicles s1.trackedVehicles).length ≤
      s1.trackedVehicles.length := List.length_filter_le _ _
  simp only [statsOf]
  omega

/-- C10: for every per-frame stats snapshot delivered by `detectFrame`,
`totalVisible = queueCount + freeFlowCount + wrongWayCount`, where
`queueCount` counts non-wrong-way tracks with `hasJoinedQueue` or
`isStopped`, `freeFlowCount` the non-wrong-way tracks with neither, and
`wrongWayCount` the wrong-way tracks. -/
theorem stats_totalVisible_partition (sq : ℚ → ℚ) (s : SessionState)
    (cands : List Candidate) :
    (detectFrame sq s cands).stats.totalVisible =
      (detectFrame sq s cands).stats.queueCount +
      (detectFrame sq s cands).stats.freeFlowCount +
      (detectFrame sq s cands).stats.wrongWayCount := by
  rw [detectFrame_stats]
  exact statsOf_partition _

/-! ### C1: every emitted row satisfies Nb = Nr + Ng -/

/-- A session step either leaves the collected rows unchanged or appends
one row built by the App callback. -/
theorem stepSession_rows (sq : ℚ → ℚ) (acc : SessionState × List SurveyRow)
    (c : List Candidate) :
    (stepSession sq acc c).2 = acc.2 ∨
    ∃ p, (stepSession sq acc c).2 = acc.2 ++ [buildRow acc.2.length p] := by
  rcases h : (detectFrame sq acc.1 c).row with _ | p
  · left
    simp [stepSession, h]
  · right
    exact ⟨p, by simp [stepSession, h]⟩

/-- Any property of rows that `buildRow` establishes and that holds of the
rows collected so far keeps holding along a run; instantiated with
`Nb = Nr + Ng`. -/
theorem runSession_rows_Nb (sq : ℚ → ℚ) (frames : List (List Candidate)) :
    ∀ st : SessionState × List SurveyRow,
      (∀ r ∈ st.2, r.Nb = r.Nr + r.Ng) →
      ∀ r ∈ (frames.foldl (stepSession sq) st).2, r.Nb = r.Nr + r.Ng := by
  induction frames with
  | nil => exact fun st h => h
  | cons c tl ih =>
    intro st h
    rw [List.foldl_cons]
    refine ih _ (fun r hr => ?_)
    rcases stepSession_rows sq st c with he | ⟨p, he⟩
    · rw [he] at hr
      exact h r hr
    · rw [he] at hr
      rcases List.mem_append.1 hr with hr2 | hr2
      · exact h r hr2
      · rw [List.mem_singleton.1 hr2]
        rfl

/-- C1: every `SurveyRow` emitted to the survey table during any run from
the initial state has `Nb = Nr + Ng` exactly; `Nb` is computed by the
`onRow` callback from the emitted `Nr` and `Ng` and is never independently
settable state. -/
theorem emitted_row_Nb_eq (sq : ℚ → ℚ) (roi : List Pt) (dv : Option Vec)
    (frames : List (List Candidate)) :
    ((runSession sq (initState roi dv) frames).2.all
      (fun r => r.Nb == r.Nr + r.Ng)) = true := by
  rw [List.all_eq_true]
  intro r hr
  exact beq_iff_eq.2 (runSession_rows_Nb sq frames (initState roi dv, [])
    (fun r hr2 => absurd hr2 (List.not_mem_nil r)) r hr)

/-! ### C2: the No of each row equals the Ni of the next -/

/-- Per-step bookkeeping of the carried overflow: either no row is emitted
and `cycleData.Ni` is unchanged, or the emitted row reads the session's
`Ni` and the reset accumulator carries exactly the row's `No`. -/
theorem detectFrame_Ni_spec (sq : ℚ → ℚ) (s : SessionState)
    (c : List Candidate) :
    ((detectFrame sq s c).row = none ∧
      (detectFrame sq s c).state.cycleData.Ni = s.cycleData.Ni) ∨
    (∃ p, (detectFrame sq s c).row = some p ∧ p.Ni = s.cycleData.Ni ∧
      (detectFrame sq s c).state.cycleData.Ni = p.No) := by
  rw [detectFrame_row, detectFrame_state]
  rcases hpd : phaseDecision (trackUpdate sq s c) with _ | ph
  · exact Or.inl ⟨rfl, trackUpdate_Ni sq s c⟩
  · cases ph
    · exact Or.inr ⟨_, rfl, rfl, rfl⟩
    · exact Or.inl ⟨rfl, rfl⟩

/-- The invariant carried along a run for C2: consecutive emitted rows are
linked, and the session's current `Ni` equals the last emitted `No`. -/
def RowChain (st : SessionState × List SurveyRow) : Prop :=
  List.Chain' (fun a b => a.No = b.Ni) st.2 ∧
  ∀ r, st.2.getLast? = some r → st.1.cycleData.Ni = r.No

/-- One session step preserves the C2 invariant. -/
theorem stepSession_rowChain (sq : ℚ → ℚ)
    (st : SessionState × List SurveyRow) (c : List Candidate)
    (h : RowChain st) : RowChain (stepSession sq st c) := by
  obtain ⟨hch, hlink⟩ := h
  rcases detectFrame_Ni_spec sq st.1 c with ⟨hrow, hNi⟩ | ⟨p, hrow, hNi, hNo⟩
  · have hstep : stepSession sq st c = ((detectFrame sq st.1 c).state, st.2) := by
      simp [stepSession, hrow]
    rw [hstep]
    refine ⟨hch, fun r hr => ?_⟩
    rw [hNi]
    exact hlink r hr
  · have hstep : stepSession sq st c =
        ((detectFrame sq st.1 c).state,
          st.2 ++ [buildRow st.2.length p]) := by
      simp [stepSession, hrow]
    rw [hstep]
    constructor
    · rw [List.chain'_append]
      refine ⟨hch, List.chain'_singleton _, fun x hx y hy => ?_⟩
      have hy2 : buildRow st.2.length p = y := by simpa using hy
      have hx2 := hlink x hx
      rw [← hy2]
      show x.No = p.Ni
      rw [hNi]
      exact hx2.symm
    · intro r hr
      rw [List.getLast?_concat] at hr
      injection hr with hr
      rw [← hr]
      exact hNo

/-- The C2 invariant holds after any run from the initial state. -/
theorem runSession_rowChain (sq : ℚ → ℚ) (roi : List Pt) (dv : Option Vec)
    (frames : List (List Candidate)) :
    RowChain (runSession sq (initState roi dv) frames) := by
  have hfold : ∀ st, RowChain st →
      RowChain (frames.foldl (stepSession sq) st) := by
    induction frames with
    | nil => exact fun st h => h
    | cons c tl ih =>
      intro st h
      rw [List.foldl_cons]
      exact ih _ (stepSession_rowChain sq st c h)
  exact hfold (initState roi dv, [])
    ⟨List.chain'_nil, fun r hr => Option.noConfusion hr⟩

/-- C2: along any run from the initial state, each emitted row's `No`
equals the next emitted row's `Ni`: the overflow finalised at a RED-start
is both written into the row and carried forward as the next cycle's
starting queue. -/
theorem row_No_carries_to_next_Ni (sq : ℚ → ℚ) (roi : List Pt)
    (dv : Option Vec) (frames : List (List Candidate)) :
    List.Chain' (fun a b => a.No = b.Ni)
      (runSession sq (initState roi dv) frames).2 :=
  (runSession_rowChain sq roi dv frames).1

/-! ### C3: hysteresis — no transition within MIN_PHASE_DURATION frames -/

/-- C3: a step that fires a phase transition does so only when strictly
more than `MIN_PHASE_DURATION` (30) frames have elapsed since the previous
transition (so never with fewer than 30; frame 0 is the initial transition
point), and it toggles the phase exactly once in that frame. -/
theorem transition_respects_hysteresis (sq : ℚ → ℚ) (s : SessionState)
    (c : List Candidate) (h : (detectFrame sq s c).transition ≠ none) :
    MIN_PHASE_DURATION <
      (detectFrame sq s c).state.frameCount - s.lastPhaseChangeFrame ∧
    (detectFrame sq s c).state.phase ≠ s.phase := by
  rw [detectFrame_transition] at h
  rcases hpd : phaseDecision (trackUpdate sq s c) with _ | p
  · exact absurd hpd h
  · obtain ⟨hw, hne⟩ := phaseDecision_some _ _ hpd
    rw [trackUpdate_frameCount, trackUpdate_lastPhaseChangeFrame] at hw
    have h1 : (detectFrame sq s c).state.frameCount = s.frameCount + 1 := by
      rw [detectFrame_state, hpd]
      simp [triggerPhaseChange_frameCount, trackUpdate_frameCount]
    have h2 : (detectFrame sq s c).state.phase = p := by
      rw [detectFrame_state, hpd]
      simp [triggerPhaseChange_phase]
    rw [trackUpdate_phase] at hne
    rw [h1, h2]
    exact ⟨hw, hne⟩

/-- The long-stopped track used by the concrete transition witnesses. -/
def wTrack : TrackedVehicle := ⟨1, 0, 0, 10, 10, 0, 10, true, 0, false, true⟩

/-- A GREEN state, 40 frames in with no transition yet, holding one
long-stopped track. -/
def wState : SessionState :=
  { roi := [], directionVector := none, trackedVehicles := [wTrack],
    nextId := 2, phase := Phase.GREEN, frameCount := 40,
    cycleData := ⟨0, 0, 0, 0, 0⟩, lastPhaseChangeFrame := 0,
    lastGreenFrameStart := 0, exitTimes := [] }

/-- Witness for C3: the empty frame at count 41 fires GREEN→RED, 41 frames
after the initial transition point. -/
theorem transition_respects_hysteresis_witness :
    MIN_PHASE_DURATION <
      (detectFrame sqrtInt wState []).state.frameCount -
        wState.lastPhaseChangeFrame ∧
    (detectFrame sqrtInt wState []).state.phase ≠ wState.phase :=
  transition_respects_hysteresis sqrtInt wState [] (by decide)

/-! ### C4: the exact transition conditions -/

/-- In a GREEN state inside the hysteresis window, the phase decision is
given by the two stopped-count tests of the source. -/
theorem phaseDecision_GREEN (s1 : SessionState)
    (hw : MIN_PHASE_DURATION < s1.frameCount - s1.lastPhaseChangeFrame)
    (hg : s1.phase = Phase.GREEN) :
    phaseDecision s1 =
      (if movingCount s1.trackedVehicles < stoppedCount s1.trackedVehicles ∧
          1 ≤ stoppedCount s1.trackedVehicles then some Phase.RED
       else if 2 ≤ stoppedCount s1.trackedVehicles then some Phase.RED
       else none) := by
  unfold phaseDecision
  rw [if_pos hw, hg]

/-- In a RED state inside the hysteresis window, the phase decision is
given by the movement test and the empty-intersection fallback. -/
theorem phaseDecision_RED (s1 : SessionState)
    (hw : MIN_PHASE_DURATION < s1.frameCount - s1.lastPhaseChangeFrame)
    (hr : s1.phase = Phase.RED) :
    phaseDecision s1 =
      (if stoppedCount s1.trackedVehicles < movingCount s1.trackedVehicles
        then some Phase.GREEN
       else if (validVehicles s1.trackedVehicles).length = 0 then
        some Phase.GREEN
       else none) := by
  unfold phaseDecision
  rw [if_pos hw, hr]

/-- C4: whenever the hysteresis window permits evaluation, GREEN→RED fires
iff (stoppedCount > movingCount and stoppedCount ≥ 1) or stoppedCount ≥ 2,
and RED→GREEN fires iff movingCount > stoppedCount or there are zero
non-wrong-way tracks, with all counts taken over the freshly updated track
list. -/
theorem transition_conditions (sq : ℚ → ℚ) (s : SessionState)
    (c : List Candidate)
    (hw : MIN_PHASE_DURATION <
      (trackUpdate sq s c).frameCount -
        (trackUpdate sq s c).lastPhaseChangeFrame) :
    (s.phase = Phase.GREEN →
      ((detectFrame sq s c).transition = some Phase.RED ↔
        (movingCount (trackUpdate sq s c).trackedVehicles <
            stoppedCount (trackUpdate sq s c).trackedVehicles ∧
          1 ≤ stoppedCount (trackUpdate sq s c).trackedVehicles) ∨
        2 ≤ stoppedCount (trackUpdate sq s c).trackedVehicles)) ∧
    (s.phase = Phase.RED →
      ((detectFrame sq s c).transition = some Phase.GREEN ↔
        stoppedCount (trackUpdate sq s c).trackedVehicles <
          movingCount (trackUpdate sq s c).trackedVehicles ∨
        (validVehicles (trackUpdate sq s c).trackedVehicles).length = 0)) := by
  constructor
  · intro hg
    rw [detectFrame_transition,
      phaseDecision_GREEN _ hw ((trackUpdate_phase sq s c).trans hg)]
    split_ifs with h1 h2 <;> simp_all <;> exact h1
  · intro hr
    rw [detectFrame_transition,
      phaseDecision_RED _ hw ((trackUpdate_phase sq s c).trans hr)]
    split_ifs with h1 h2 <;> simp_all

/-- Witness for C4: on the concrete GREEN state the biconditional is
realised with a firing transition. -/
theorem transition_conditions_witness :
    (detectFrame sqrtInt wState []).transition = some Phase.RED ↔
      (movingCount (trackUpdate sqrtInt wState []).trackedVehicles <
          stoppedCount (trackUpdate sqrtInt wState []).trackedVehicles ∧
        1 ≤ stoppedCount (trackUpdate sqrtInt wState []).trackedVehicles) ∨
      2 ≤ stoppedCount (trackUpdate sqrtInt wState []).trackedVehicles :=
  (transition_conditions sqrtInt wState [] (by decide)).1 rfl

/-! ### C5: the queue-join edge drives the arrival counter -/

/-- C5: for a candidate that matches track `t`, the arrival counter is
incremented exactly when the queue-join edge fires; it fires iff the phase
is GREEN, the track had not joined, the freshly updated `wrongWay` is
false and the freshly updated speed is below `QUEUE_JOIN_THRESHOLD`; the
firing update sets `hasJoinedQueue`, and `hasJoinedQueue` is sticky under
matched updates, so the same track cannot fire twice in a GREEN window. -/
theorem queue_join_increment (sq : ℚ → ℚ) (ph : Phase) (dv : Option Vec)
    (tracked : List TrackedVehicle) (acc : MatchAcc) (v : Candidate)
    (t : TrackedVehicle)
    (h : (findBest sq tracked acc.matched v.x v.y).1 = some t) :
    (processCandidate sq ph dv tracked acc v).arrivals =
      acc.arrivals + (if (matchUpdate sq ph dv t v).2 then 1 else 0) ∧
    ((matchUpdate sq ph dv t v).2 = true ↔
      ph = Phase.GREEN ∧ t.hasJoinedQueue = false ∧
      (matchUpdate sq ph dv t v).1.wrongWay = false ∧
      (matchUpdate sq ph dv t v).1.speed < QUEUE_JOIN_THRESHOLD) ∧
    ((matchUpdate sq ph dv t v).2 = true →
      (matchUpdate sq ph dv t v).1.hasJoinedQueue = true) ∧
    (t.hasJoinedQueue = true →
      (matchUpdate sq ph dv t v).1.hasJoinedQueue = true) := by
  refine ⟨?_, ?_, ?_, ?_⟩
  · simp only [processCandidate, h]
  · simp only [matchUpdate]
    split_ifs with h1 h2 <;> simp_all
  · simp only [matchUpdate]
    split_ifs with h1 h2 <;> simp_all
  · simp only [matchUpdate]
    split_ifs with h1 h2 <;> simp_all

/-- `Math.sqrt 0 = 0`, transported to the concrete stand-in. -/
theorem sqrtInt_zero : sqrtInt 0 = 0 := by simp [sqrtInt]

/-- The moving, not-yet-joined track used by the queue-join witness. -/
def qTrack : TrackedVehicle := ⟨1, 0, 0, 10, 10, 4, 5, false, 0, false, false⟩

/-- The candidate at the origin used by concrete single-step evaluations. -/
def demoCand : Candidate := { x := 0, y := 0, w := 10, h := 10 }

/-- Witness for C5: the biconditional realised on a concrete matched
track. -/
theorem queue_join_increment_witness :
    (matchUpdate sqrtInt Phase.GREEN none qTrack demoCand).2 = true ↔
      Phase.GREEN = Phase.GREEN ∧ qTrack.hasJoinedQueue = false ∧
      (matchUpdate sqrtInt Phase.GREEN none qTrack demoCand).1.wrongWay =
        false ∧
      (matchUpdate sqrtInt Phase.GREEN none qTrack demoCand).1.speed <
        QUEUE_JOIN_THRESHOLD :=
  (queue_join_increment sqrtInt Phase.GREEN none [qTrack] ⟨[], [], 2, 0⟩
    demoCand qTrack (by
      norm_num [findBest, fbStep, sqrtInt_zero, qTrack, demoCand])).2.1

/-! ### C6: degenerate vectors in the wrong-way check (corrected) -/

/-- A wrong-way track moving fast enough to pass the speed gate. -/
def cxTrack : TrackedVehicle := ⟨1, 0, 0, 10, 10, 4, 5, false, 0, true, false⟩

/-- A non-degenerate configured flow vector. -/
def cxFlow : Vec := ⟨⟨0, 0⟩, ⟨10, 0⟩⟩

/-- Counterexample to C6 as stated: a matched update with zero-magnitude
displacement (candidate exactly at the track position, smoothed speed 2
above the 1.5 gate) does not retain the previous `wrongWay = true`; the
`NaN < 0.2` comparison is false, so `wrongWay` is set to `false`. -/
theorem degenerate_input_not_retained :
    cxTrack.wrongWay = true ∧
    (matchUpdate sqrtInt Phase.GREEN (some cxFlow) cxTrack demoCand).1.wrongWay
      = false := by
  refine ⟨rfl, ?_⟩
  simp only [matchUpdate, wrongWayUpdate, jsDivLt, cxTrack, cxFlow, demoCand]
  norm_num [sqrtInt_zero]

/-- C6 amended: with a configured direction vector and the 1.5 speed gate
passed, a zero-magnitude displacement vector (or a zero-magnitude flow
vector, which forces a zero dot product) gives the cosine similarity a
zero denominator and zero numerator; the JavaScript division yields `NaN`,
the comparison `NaN < 0.2` is false, and the track's `wrongWay` is set to
`false` — no fault occurs, but a previous `wrongWay = true` is overridden
rather than retained. -/
theorem degenerate_input_clears_wrongWay (sq : ℚ → ℚ) (u : Vec)
    (prev : Bool) (dx dy speed : ℚ) (h0 : sq 0 = 0)
    (hgate : (3 / 2 : ℚ) < speed)
    (hdeg : (dx = 0 ∧ dy = 0) ∨
      (u.endP.x = u.startP.x ∧ u.endP.y = u.startP.y)) :
    wrongWayUpdate sq (some u) prev dx dy speed = false := by
  simp only [wrongWayUpdate]
  rw [if_pos hgate]
  rcases hdeg with ⟨hdx, hdy⟩ | ⟨hux, huy⟩
  · subst hdx
    subst hdy
    simp [jsDivLt, h0]
  · rw [hux, huy]
    simp [jsDivLt, h0]

/-- Witness for the amended C6: the concrete degenerate update. -/
theorem degenerate_input_clears_wrongWay_witness :
    wrongWayUpdate sqrtInt (some cxFlow) true 0 0 2 = false :=
  degenerate_input_clears_wrongWay sqrtInt cxFlow true 0 0 2 sqrtInt_zero
    (by norm_num) (Or.inl ⟨rfl, rfl⟩)

/-! ### C7: the avgGap sentinel (corrected) -/

/-- The computed average gap is never negative. -/
theorem avgGapCalc_nonneg (l : List Nat) : 0 ≤ avgGapCalc l := by
  unfold avgGapCalc
  split_ifs <;> positivity

/-- A GREEN state whose cycle recorded two simultaneous exit events. -/
def gapState : SessionState :=
  { roi := [], directionVector := none, trackedVehicles := [], nextId := 1,
    phase := Phase.GREEN, frameCount := 100, cycleData := ⟨0, 0, 0, 0, 0⟩,
    lastPhaseChangeFrame := 0, lastGreenFrameStart := 0,
    exitTimes := [10, 10] }

/-- Counterexample to C7 as stated: a cycle with two exit events whose
genuine average gap is zero seconds is emitted with the unavailable
sentinel (`avgGap = none`), so the sentinel is produced in place of a true
zero-second gap. -/
theorem zero_gap_conflated_with_sentinel :
    gapState.exitTimes.length = 2 ∧
    avgGapCalc gapState.exitTimes = 0 ∧
    (triggerPhaseChange gapState Phase.RED).2 = some ⟨0, 0, 0, 0, none⟩ := by
  have hz : avgGapCalc gapState.exitTimes = 0 := by
    norm_num [avgGapCalc, gapState, List.insertionSort, List.orderedInsert]
  refine ⟨rfl, hz, ?_⟩
  simp only [triggerPhaseChange, hz]
  norm_num [gapState, validVehicles]

/-- C7 amended: the row emitted at a RED-start carries the `avgGap`
sentinel (`none`, rendered `'-'`) exactly when the computed average gap is
zero — which covers every cycle with fewer than two exit events, but also
any cycle whose two or more exits yield a genuine zero-second average. -/
theorem avgGap_sentinel_spec (s : SessionState) (p : CycleRow)
    (h : (triggerPhaseChange s Phase.RED).2 = some p) :
    (s.exitTimes.length < 2 → p.avgGap = none) ∧
    (p.avgGap = none ↔ avgGapCalc s.exitTimes = 0) := by
  have havg : p.avgGap =
      (if 0 < avgGapCalc s.exitTimes then some (avgGapCalc s.exitTimes)
       else none) := by
    simp only [triggerPhaseChange] at h
    injection h with h
    rw [← h]
  constructor
  · intro hlen
    have hz : avgGapCalc s.exitTimes = 0 := by
      unfold avgGapCalc
      rw [if_neg (by omega)]
    rw [havg, hz]
    simp
  · rw [havg]
    constructor
    · intro hn
      by_contra hne
      have hpos : 0 < avgGapCalc s.exitTimes :=
        lt_of_le_of_ne (avgGapCalc_nonneg _) (Ne.symm hne)
      rw [if_pos hpos] at hn
      exact Option.noConfusion hn
    · intro hz
      rw [hz]
      simp

/-- A GREEN state whose cycle recorded a single exit event. -/
def gapState1 : SessionState :=
  { roi := [], directionVector := none, trackedVehicles := [], nextId := 1,
    phase := Phase.GREEN, frameCount := 100, cycleData := ⟨0, 0, 0, 0, 0⟩,
    lastPhaseChangeFrame := 0, lastGreenFrameStart := 0, exitTimes := [7] }

/-- Witness for the amended C7: one exit event yields the sentinel. -/
theorem avgGap_sentinel_spec_witness :
    (gapState1.exitTimes.length < 2 →
      (⟨0, 0, 0, 0, none⟩ : CycleRow).avgGap = none) ∧
    ((⟨0, 0, 0, 0, none⟩ : CycleRow).avgGap = none ↔
      avgGapCalc gapState1.exitTimes = 0) :=
  avgGap_sentinel_spec gapState1 ⟨0, 0, 0, 0, none⟩ (by decide)

/-! ### C8: the effect of an empty-candidate frame (corrected) -/

/-- A track already at the persistence limit. -/
def expTrack : TrackedVehicle := ⟨1, 0, 0, 10, 10, 0, 20, true, 15, false, true⟩

/-- A fast, queue-joined track with no missing frames. -/
def fastTrack : TrackedVehicle := ⟨2, 5, 5, 10, 10, 9, 10, false, 0, false, true⟩

/-- A RED state holding both tracks, past the hysteresis window. -/
def dropState : SessionState :=
  { roi := [], directionVector := none,
    trackedVehicles := [expTrack, fastTrack], nextId := 3,
    phase := Phase.RED, frameCount := 100, cycleData := ⟨0, 0, 0, 0, 0⟩,
    lastPhaseChangeFrame := 0, lastGreenFrameStart := 0, exitTimes := [] }

/-- Counterexample to C8 as stated: the empty-candidate frame on
`dropState` removes the track at the persistence limit and, because the
frame fires RED→GREEN, also rewrites the surviving track's
`hasJoinedQueue` — it does not merely increment `missingFrames` on every
live track. -/
theorem empty_frame_not_increment_only :
    dropState.trackedVehicles.length = 2 ∧
    (detectFrame sqrtInt dropState []).state.trackedVehicles =
      [{ fastTrack with missingFrames := 1, hasJoinedQueue := false }] := by
  decide

/-- The unmatched-track fold appends exactly the below-limit tracks with
`missingFrames` bumped. -/
theorem huStep_foldl_fst (ph : Phase) (fc : Nat) (m : List Nat) :
    ∀ (tracked : List TrackedVehicle) (a : List TrackedVehicle)
      (e : List Nat),
      (tracked.foldl (huStep ph fc m) (a, e)).1 =
        a ++ (tracked.filter (fun t => decide (¬ t.id ∈ m) &&
            decide (t.missingFrames < MAX_MISSING_FRAMES))).map
          (fun t => { t with missingFrames := t.missingFrames + 1 }) := by
  intro tracked
  induction tracked with
  | nil => intro a e; simp
  | cons t tl ih =>
    intro a e
    rw [List.foldl_cons]
    by_cases h1 : t.id ∈ m
    · have hh : huStep ph fc m (a, e) t = (a, e) := by
        unfold huStep
        rw [if_pos h1]
      rw [hh, ih a e]
      simp [List.filter_cons, h1]
    · by_cases h2 : t.missingFrames < MAX_MISSING_FRAMES
      · have hh : huStep ph fc m (a, e) t =
            (a ++ [{ t with missingFrames := t.missingFrames + 1 }], e) := by
          unfold huStep
          rw [if_neg h1, if_pos h2]
        rw [hh, ih]
        simp [List.filter_cons, h1, h2]
      · by_cases h3 : ph = Phase.GREEN ∧ t.wrongWay = false ∧
            t.isStopped = false ∧ 5 < t.framesSeen
        · have hh : huStep ph fc m (a, e) t = (a, e ++ [fc]) := by
            unfold huStep
            rw [if_neg h1, if_neg h2, if_pos h3]
          rw [hh, ih]
          simp [List.filter_cons, h1, h2]
        · have hh : huStep ph fc m (a, e) t = (a, e) := by
            unfold huStep
            rw [if_neg h1, if_neg h2, if_neg h3]
          rw [hh, ih a e]
          simp [List.filter_cons, h1, h2]

/-- An empty-candidate tracking update keeps exactly the below-limit
tracks, bumping their `missingFrames`. -/
theorem trackUpdate_empty (sq : ℚ → ℚ) (s : SessionState) :
    (trackUpdate sq s []).trackedVehicles =
      (s.trackedVehicles.filter (fun t =>
        decide (t.missingFrames < MAX_MISSING_FRAMES))).map
        (fun t => { t with missingFrames := t.missingFrames + 1 }) := by
  show ([] ++ (handleUnmatched s.phase (s.frameCount + 1) []
      s.trackedVehicles s.exitTimes).1) = _
  unfold handleUnmatched
  rw [huStep_foldl_fst, List.nil_append, List.nil_append]
  congr 1

/-- C8 amended: processing an empty-candidate frame retains exactly the
tracks with `missingFrames < MAX_MISSING_FRAMES` (15), each unchanged
except `missingFrames`, which increments by exactly 1 — so repeating an
empty frame has the same per-track effect on survivors — while tracks at
the limit are dropped; if the frame additionally fires a RED→GREEN
transition, `hasJoinedQueue` is re-baselined on the retained tracks. -/
theorem empty_frame_spec (sq : ℚ → ℚ) (s : SessionState)
    (h : (detectFrame sq s []).transition ≠ some Phase.GREEN) :
    (detectFrame sq s []).state.trackedVehicles =
      (s.trackedVehicles.filter (fun t =>
        decide (t.missingFrames < MAX_MISSING_FRAMES))).map
        (fun t => { t with missingFrames := t.missingFrames + 1 }) := by
  rw [detectFrame_transition] at h
  rw [detectFrame_state]
  rcases hpd : phaseDecision (trackUpdate sq s []) with _ | p
  · exact trackUpdate_empty sq s
  · cases p
    · exact trackUpdate_empty sq s
    · exact absurd hpd h

/-- A GREEN state early in the survey (no transition can fire). -/
def quietState : SessionState :=
  { roi := [], directionVector := none, trackedVehicles := [fastTrack],
    nextId := 3, phase := Phase.GREEN, frameCount := 5,
    cycleData := ⟨0, 0, 0, 0, 0⟩, lastPhaseChangeFrame := 0,
    lastGreenFrameStart := 0, exitTimes := [] }

/-- Witness for the amended C8 on a concrete transition-free state. -/
theorem empty_frame_spec_witness :
    (detectFrame sqrtInt quietState []).state.trackedVehicles =
      (quietState.trackedVehicles.filter (fun t =>
        decide (t.missingFrames < MAX_MISSING_FRAMES))).map
        (fun t => { t with missingFrames := t.missingFrames + 1 }) :=
  empty_frame_spec sqrtInt quietState (by decide)

/-! ### C9: track ids unique, strictly increasing, never reused -/

/-- The ids of a track list. -/
def idsOf (l : List TrackedVehicle) : List Nat := l.map (fun t => t.id)

/-- Membership in the id list. -/
theorem mem_idsOf {i : Nat} {l : List TrackedVehicle} :
    i ∈ idsOf l ↔ ∃ t ∈ l, t.id = i := by
  simp [idsOf]

/-- `idsOf` distributes over append. -/
theorem idsOf_append (l1 l2 : List TrackedVehicle) :
    idsOf (l1 ++ l2) = idsOf l1 ++ idsOf l2 := List.map_append _ _ _

/-- Bumping `missingFrames` does not change the ids. -/
theorem idsOf_map_bump (l : List TrackedVehicle) :
    idsOf (l.map (fun t => { t with missingFrames := t.missingFrames + 1 }))
      = idsOf l := by
  unfold idsOf
  rw [List.map_map]
  exact List.map_congr_left (fun x _ => rfl)

/-- Filtering keeps the id list a sublist. -/
theorem idsOf_filter_sublist (p : TrackedVehicle → Bool)
    (l : List TrackedVehicle) :
    List.Sublist (idsOf (l.filter p)) (idsOf l) :=
  List.Sublist.map _ (List.filter_sublist l)

/-- A matched-track update keeps the track's id. -/
theorem matchUpdate_id (sq : ℚ → ℚ) (ph : Phase) (dv : Option Vec)
    (t : TrackedVehicle) (v : Candidate) :
    (matchUpdate sq ph dv t v).1.id = t.id := rfl

/-- The best-match scan only ever returns an unmatched member of the
scanned list. -/
theorem fbStep_foldl_some (sq : ℚ → ℚ) (m : List Nat) (vx vy : ℚ)
    (S : List TrackedVehicle) :
    ∀ (L : List TrackedVehicle) (acc : Option TrackedVehicle × ℚ),
      (∀ x ∈ L, x ∈ S) →
      (∀ t, acc.1 = some t → t ∈ S ∧ t.id ∉ m) →
      ∀ t, (L.foldl (fbStep sq m vx vy) acc).1 = some t →
        t ∈ S ∧ t.id ∉ m := by
  intro L
  induction L with
  | nil => intro acc _ hacc; exact hacc
  | cons x tl ih =>
    intro acc hmem hacc
    rw [List.foldl_cons]
    refine ih _ (fun y hy => hmem y (List.mem_cons_of_mem _ hy)) ?_
    intro t ht
    simp only [fbStep] at ht
    split_ifs at ht with h1 h2
    · exact hacc t ht
    · injection ht with ht
      subst ht
      exact ⟨hmem x (List.mem_cons_self x tl), h1⟩
    · exact hacc t ht

/-- `findBest` returns an unmatched member of the track list. -/
theorem findBest_some_mem (sq : ℚ → ℚ) (tracked : List TrackedVehicle)
    (m : List Nat) (vx vy : ℚ) (t : TrackedVehicle)
    (h : (findBest sq tracked m vx vy).1 = some t) :
    t ∈ tracked ∧ t.id ∉ m :=
  fbStep_foldl_some sq m vx vy tracked tracked (none, 60) (fun _ hx => hx)
    (fun _ ht => Option.noConfusion ht) t h

/-- Invariant of the candidate loop: the freshly built list has pairwise
distinct ids, each id is either a matched id of the original list or a
newly allocated one in `[n0, nextId)`, the matched set only holds ids of
the original list, and the counter never goes below `n0`. -/
def AccInv (T : List TrackedVehicle) (n0 : Nat) (acc : MatchAcc) : Prop :=
  (idsOf acc.newTracked).Nodup ∧
  (∀ u ∈ acc.newTracked,
    (u.id ∈ idsOf T ∧ u.id ∈ acc.matched) ∨
    (n0 ≤ u.id ∧ u.id < acc.nextId)) ∧
  (∀ i ∈ acc.matched, i ∈ idsOf T) ∧
  n0 ≤ acc.nextId

/-- One candidate preserves the loop invariant. -/
theorem processCandidate_AccInv (sq : ℚ → ℚ) (ph : Phase) (dv : Option Vec)
    (T : List TrackedVehicle) (n0 : Nat) (hT : ∀ t ∈ T, t.id < n0)
    (acc : MatchAcc) (v : Candidate) (h : AccInv T n0 acc) :
    AccInv T n0 (processCandidate sq ph dv T acc v) := by
  obtain ⟨hnd, hmem, hmat, hn⟩ := h
  unfold processCandidate
  rcases hfb : (findBest sq T acc.matched v.x v.y).1 with _ | t
  · refine ⟨?_, ?_, hmat, hn.trans (Nat.le_succ _)⟩
    · rw [idsOf_append]
      refine List.Nodup.append hnd (List.nodup_singleton _) ?_
      intro i hi1 hi2
      have hi3 : i = acc.nextId := by simpa [idsOf, newTrack] using hi2
      subst hi3
      obtain ⟨u, hu, hui⟩ := mem_idsOf.1 hi1
      rcases hmem u hu with ⟨hidT, _⟩ | ⟨_, hlt⟩
      · obtain ⟨t0, ht0, ht0i⟩ := mem_idsOf.1 hidT
        have hb := hT t0 ht0
        omega
      · omega
    · intro u hu
      rcases List.mem_append.1 hu with hu | hu
      · rcases hmem u hu with ⟨h1, h2⟩ | ⟨h1, h2⟩
        · exact Or.inl ⟨h1, h2⟩
        · exact Or.inr ⟨h1, Nat.lt_succ_of_lt h2⟩
      · have hu2 : u = newTrack acc.nextId v := by simpa using hu
        subst hu2
        exact Or.inr ⟨hn, Nat.lt_succ_self _⟩
  · obtain ⟨htT, htm⟩ := findBest_some_mem sq T acc.matched v.x v.y t hfb
    have htid : t.id ∈ idsOf T := mem_idsOf.2 ⟨t, htT, rfl⟩
    have hltn : t.id < n0 := hT t htT
    refine ⟨?_, ?_, ?_, hn⟩
    · rw [idsOf_append]
      refine List.Nodup.append hnd (List.nodup_singleton _) ?_
      intro i hi1 hi2
      have hi3 : i = t.id := by
        simpa [idsOf, matchUpdate_id] using hi2
      subst hi3
      obtain ⟨u, hu, hui⟩ := mem_idsOf.1 hi1
      rcases hmem u hu with ⟨_, h2⟩ | ⟨h1, _⟩
      · rw [hui] at h2
        exact htm h2
      · omega
    · intro u hu
      rcases List.mem_append.1 hu with hu | hu
      · rcases hmem u hu with ⟨h1, h2⟩ | hr
        · exact Or.inl ⟨h1, List.mem_cons_of_mem _ h2⟩
        · exact Or.inr hr
      · have hu2 : u = (matchUpdate sq ph dv t v).1 := by simpa using hu
        subst hu2
        refine Or.inl ⟨?_, ?_⟩
        · rw [matchUpdate_id]
          exact htid
        · rw [matchUpdate_id]
          exact List.mem_cons_self _ _
    · intro i hi
      rcases List.mem_cons.1 hi with hi | hi
      · subst hi
        exact htid
      · exact hmat i hi

/-- The whole candidate loop preserves the invariant. -/
theorem foldl_processCandidate_AccInv (sq : ℚ → ℚ) (ph : Phase)
    (dv : Option Vec) (T : List TrackedVehicle) (n0 : Nat)
    (hT : ∀ t ∈ T, t.id < n0) :
    ∀ (cands : List Candidate) (acc : MatchAcc), AccInv T n0 acc →
      AccInv T n0 (cands.foldl (processCandidate sq ph dv T) acc) := by
  intro cands
  induction cands with
  | nil => exact fun acc h => h
  | cons v tl ih =>
    intro acc h
    rw [List.foldl_cons]
    exact ih _ (processCandidate_AccInv sq ph dv T n0 hT acc v h)

/-- The candidate loop of `trackUpdate`, named for the decomposition. -/
def candFold (sq : ℚ → ℚ) (s : SessionState) (c : List Candidate) :
    MatchAcc :=
  c.foldl (processCandidate sq s.phase s.directionVector s.trackedVehicles)
    ⟨[], [], s.nextId, s.cycleData.arrivals⟩

/-- `trackUpdate` splits into the candidate loop and the unmatched
handler. -/
theorem trackUpdate_decomp (sq : ℚ → ℚ) (s : SessionState)
    (c : List Candidate) :
    (trackUpdate sq s c).trackedVehicles =
      (candFold sq s c).newTracked ++
        (handleUnmatched s.phase (s.frameCount + 1) (candFold sq s c).matched
          s.trackedVehicles s.exitTimes).1 ∧
    (trackUpdate sq s c).nextId = (candFold sq s c).nextId := ⟨rfl, rfl⟩

/-- The tracking update preserves distinctness and boundedness of ids,
never decreases the counter, and introduces only fresh ids. -/
theorem trackUpdate_ids (sq : ℚ → ℚ) (s : SessionState) (c : List Candidate)
    (hnd : (idsOf s.trackedVehicles).Nodup)
    (hb : ∀ t ∈ s.trackedVehicles, t.id < s.nextId) :
    (idsOf (trackUpdate sq s c).trackedVehicles).Nodup ∧
    (∀ t ∈ (trackUpdate sq s c).trackedVehicles,
      t.id < (trackUpdate sq s c).nextId) ∧
    s.nextId ≤ (trackUpdate sq s c).nextId ∧
    (∀ t ∈ (trackUpdate sq s c).trackedVehicles,
      t.id ∈ idsOf s.trackedVehicles ∨ s.nextId ≤ t.id) := by
  have hInv : AccInv s.trackedVehicles s.nextId (candFold sq s c) :=
    foldl_processCandidate_AccInv sq s.phase s.directionVector
      s.trackedVehicles s.nextId hb c ⟨[], [], s.nextId, s.cycleData.arrivals⟩
      ⟨List.nodup_nil, fun u hu => absurd hu (List.not_mem_nil u),
        fun i hi => absurd hi (List.not_mem_nil i), le_refl _⟩
  obtain ⟨hnd2, hmem2, hmat2, hn2⟩ := hInv
  obtain ⟨heq, hnext⟩ := trackUpdate_decomp sq s c
  have hhu : (handleUnmatched s.phase (s.frameCount + 1)
      (candFold sq s c).matched s.trackedVehicles s.exitTimes).1 =
      (s.trackedVehicles.filter (fun t =>
        decide (¬ t.id ∈ (candFold sq s c).matched) &&
        decide (t.missingFrames < MAX_MISSING_FRAMES))).map
        (fun t => { t with missingFrames := t.missingFrames + 1 }) := by
    unfold handleUnmatched
    rw [huStep_foldl_fst, List.nil_append]
  rw [heq, hhu, hnext]
  have hPmem : ∀ u ∈ (s.trackedVehicles.filter (fun t =>
      decide (¬ t.id ∈ (candFold sq s c).matched) &&
      decide (t.missingFrames < MAX_MISSING_FRAMES))).map
      (fun t => { t with missingFrames := t.missingFrames + 1 }),
      u.id ∈ idsOf s.trackedVehicles ∧
      u.id ∉ (candFold sq s c).matched ∧ u.id < s.nextId := by
    intro u hu
    obtain ⟨w, hw, hwe⟩ := List.mem_map.1 hu
    obtain ⟨hwT, hwp⟩ := List.mem_filter.1 hw
    have hwid : u.id = w.id := by
      rw [← hwe]
    have hwm : ¬ w.id ∈ (candFold sq s c).matched := by
      simp only [Bool.and_eq_true, decide_eq_true_eq] at hwp
      exact hwp.1
    rw [hwid]
    exact ⟨mem_idsOf.2 ⟨w, hwT, rfl⟩, hwm, hb w hwT⟩
  refine ⟨?_, ?_, hn2, ?_⟩
  · rw [idsOf_append]
    refine List.Nodup.append hnd2 ?_ ?_
    · rw [idsOf_map_bump]
      exact List.Nodup.sublist (idsOf_filter_sublist _ _) hnd
    · intro i hi1 hi2
      obtain ⟨u, hu, hui⟩ := mem_idsOf.1 hi2
      obtain ⟨huT, hum, hub⟩ := hPmem u hu
      rcases mem_idsOf.1 hi1 with ⟨w, hw, hwi⟩
      rcases hmem2 w hw with ⟨_, h2⟩ | ⟨h1, _⟩
      · rw [hwi, ← hui] at h2
        exact hum h2
      · omega
  · intro t ht
    rcases List.mem_append.1 ht with ht | ht
    · rcases hmem2 t ht with ⟨h1, _⟩ | ⟨_, h2⟩
      · obtain ⟨t0, ht0, ht0i⟩ := mem_idsOf.1 h1
        have := hb t0 ht0
        omega
      · exact h2
    · obtain ⟨_, _, hub⟩ := hPmem t ht
      omega
  · intro t ht
    rcases List.mem_append.1 ht with ht | ht
    · rcases hmem2 t ht with ⟨h1, _⟩ | ⟨h1, _⟩
      · exact Or.inl h1
      · exact Or.inr h1
    · exact Or.inl (hPmem t ht).1

/-- The GREEN re-baseline keeps each track's id. -/
theorem greenRebase_id (v : TrackedVehicle) :
    (if !v.wrongWay then
        { v with hasJoinedQueue := v.isStopped || decide (v.speed < 2) }
      else v).id = v.id := by
  split <;> rfl

/-- A phase transition changes neither the ids of the live tracks nor the
id counter. -/
theorem triggerPhaseChange_idsOf (s1 : SessionState) (p : Phase) :
    idsOf (triggerPhaseChange s1 p).1.trackedVehicles =
      idsOf s1.trackedVehicles ∧
    (triggerPhaseChange s1 p).1.nextId = s1.nextId := by
  cases p
  · exact ⟨rfl, rfl⟩
  · refine ⟨?_, rfl⟩
    show idsOf (s1.trackedVehicles.map _) = _
    unfold idsOf
    rw [List.map_map]
    exact List.map_congr_left (fun v _ => greenRebase_id v)

/-- One full step preserves the id invariant and allocates only fresh
ids. -/
theorem detectFrame_ids (sq : ℚ → ℚ) (s : SessionState) (c : List Candidate)
    (hnd : (idsOf s.trackedVehicles).Nodup)
    (hb : ∀ t ∈ s.trackedVehicles, t.id < s.nextId) :
    (idsOf (detectFrame sq s c).state.trackedVehicles).Nodup ∧
    (∀ t ∈ (detectFrame sq s c).state.trackedVehicles,
      t.id < (detectFrame sq s c).state.nextId) ∧
    s.nextId ≤ (detectFrame sq s c).state.nextId ∧
    (∀ t ∈ (detectFrame sq s c).state.trackedVehicles,
      t.id ∈ idsOf s.trackedVehicles ∨ s.nextId ≤ t.id) := by
  obtain ⟨h1, h2, h3, h4⟩ := trackUpdate_ids sq s c hnd hb
  rw [detectFrame_state]
  rcases hpd : phaseDecision (trackUpdate sq s c) with _ | p
  · exact ⟨h1, h2, h3, h4⟩
  · cases p
    · exact ⟨h1, h2, h3, h4⟩
    · obtain ⟨hids, hnext⟩ :=
        triggerPhaseChange_idsOf (trackUpdate sq s c) Phase.GREEN
      refine ⟨?_, ?_, ?_, ?_⟩
      · show (idsOf (triggerPhaseChange (trackUpdate sq s c)
            Phase.GREEN).1.trackedVehicles).Nodup
        rw [hids]
        exact h1
      · intro t ht
        have ht3 : t ∈ (trackUpdate sq s c).trackedVehicles.map
            (fun v => if !v.wrongWay then
              { v with hasJoinedQueue := v.isStopped || decide (v.speed < 2) }
            else v) := ht
        obtain ⟨u, hu, hue⟩ := List.mem_map.1 ht3
        have hid : t.id = u.id := by
          rw [← hue]
          exact greenRebase_id u
        show t.id < (triggerPhaseChange (trackUpdate sq s c)
            Phase.GREEN).1.nextId
        rw [hnext, hid]
        exact h2 u hu
      · show s.nextId ≤ (triggerPhaseChange (trackUpdate sq s c)
            Phase.GREEN).1.nextId
        rw [hnext]
        exact h3
      · intro t ht
        have ht3 : t ∈ (trackUpdate sq s c).trackedVehicles.map
            (fun v => if !v.wrongWay then
              { v with hasJoinedQueue := v.isStopped || decide (v.speed < 2) }
            else v) := ht
        obtain ⟨u, hu, hue⟩ := List.mem_map.1 ht3
        have hid : t.id = u.id := by
          rw [← hue]
          exact greenRebase_id u
        rw [hid]
        exact h4 u hu

/-- The id invariant holds in every state reachable from the initial
state. -/
theorem runSession_ids (sq : ℚ → ℚ) (roi : List Pt) (dv : Option Vec)
    (frames : List (List Candidate)) :
    (idsOf (runSession sq (initState roi dv)
      frames).1.trackedVehicles).Nodup ∧
    ∀ t ∈ (runSession sq (initState roi dv) frames).1.trackedVehicles,
      t.id < (runSession sq (initState roi dv) frames).1.nextId := by
  have hgen : ∀ st : SessionState × List SurveyRow,
      (idsOf st.1.trackedVehicles).Nodup →
      (∀ t ∈ st.1.trackedVehicles, t.id < st.1.nextId) →
      (idsOf (frames.foldl (stepSession sq) st).1.trackedVehicles).Nodup ∧
      ∀ t ∈ (frames.foldl (stepSession sq) st).1.trackedVehicles,
        t.id < (frames.foldl (stepSession sq) st).1.nextId := by
    induction frames with
    | nil => exact fun st h1 h2 => ⟨h1, h2⟩
    | cons c tl ih =>
      intro st h1 h2
      rw [List.foldl_cons]
      have hstep := detectFrame_ids sq st.1 c h1 h2
      have hfst : (stepSession sq st c).1 = (detectFrame sq st.1 c).state := by
        rcases h : (detectFrame sq st.1 c).row with _ | p <;>
          simp [stepSession, h]
      apply ih
      · rw [hfst]
        exact hstep.1
      · rw [hfst]
        exact hstep.2.1
  exact hgen (initState roi dv, []) List.nodup_nil
    (fun t ht => absurd ht (List.not_mem_nil t))

/-- C9: across any run from the initial state followed by one more step,
the live track ids are pairwise distinct and all strictly below the id
counter; the counter never decreases, and every live id after the step was
either already live before it or freshly allocated at or above the old
counter — so each spawned track's id is strictly greater than every id
assigned before, and no id is ever reused after its track expires. -/
theorem track_ids_fresh (sq : ℚ → ℚ) (roi : List Pt) (dv : Option Vec)
    (frames : List (List Candidate)) (c : List Candidate) :
    (idsOf (detectFrame sq (runSession sq (initState roi dv) frames).1
        c).state.trackedVehicles).Nodup ∧
    ((detectFrame sq (runSession sq (initState roi dv) frames).1
        c).state.trackedVehicles.all (fun t =>
      decide (t.id < (detectFrame sq (runSession sq (initState roi dv)
        frames).1 c).state.nextId))) = true ∧
    (runSession sq (initState roi dv) frames).1.nextId ≤
      (detectFrame sq (runSession sq (initState roi dv) frames).1
        c).state.nextId ∧
    ((detectFrame sq (runSession sq (initState roi dv) frames).1
        c).state.trackedVehicles.all (fun t =>
      decide (t.id ∈ idsOf (runSession sq (initState roi dv)
        frames).1.trackedVehicles) ||
      decide ((runSession sq (initState roi dv) frames).1.nextId ≤ t.id)))
      = true := by
  obtain ⟨h1, h2⟩ := runSession_ids sq roi dv frames
  obtain ⟨g1, g2, g3, g4⟩ := detectFrame_ids sq _ c h1 h2
  refine ⟨g1, ?_, g3, ?_⟩
  · rw [List.all_eq_true]
    intro t ht
    simpa using g2 t ht
  · rw [List.all_eq_true]
    intro t ht
    rcases g4 t ht with h | h
    · simp [h]
    · simp [h]

end Traffic
